import Mathlib

/-!
Shallow embedding of the MD1D single-particle simulator
(`src/MD1D/particle.py`, `src/MD1D/potentials.py`,
`src/MD1D/particle_sim.py`).  Real arithmetic is modelled with `ℚ`
(exact field arithmetic); Python's in-place mutation of the particle is
modelled by explicit state passing.
-/

/-- Model of `Particle1D` from `particle.py`: position, velocity, mass,
acceleration. -/
structure Particle1D where
  position : ℚ
  velocity : ℚ
  mass : ℚ
  acceleration : ℚ
deriving Repr, DecidableEq

/-- Model of `Particle1D.__init__` with explicit position and velocity (the random
defaults are not modelled); mass is stored unchecked, acceleration starts
at `0.0`. -/
def Particle1D.init (position velocity mass : ℚ) : Particle1D :=
  { position := position, velocity := velocity, mass := mass,
    acceleration := 0 }

/-- Model of `Particle1D.apply_force`: `self.acceleration = force / self.mass`. -/
def Particle1D.apply_force (p : Particle1D) (force : ℚ) : Particle1D :=
  { p with acceleration := force / p.mass }

/-- Model of `Particle1D.update_position`: `self.position += self.velocity * dt`. -/
def Particle1D.update_position (p : Particle1D) (dt : ℚ) : Particle1D :=
  { p with position := p.position + p.velocity * dt }

/-- Model of `Particle1D.update_velocity`: `self.velocity += self.acceleration * dt`. -/
def Particle1D.update_velocity (p : Particle1D) (dt : ℚ) : Particle1D :=
  { p with velocity := p.velocity + p.acceleration * dt }

/-- The `Potential` interface from `potentials.py`: `__call__` (potential
energy) and `force`. -/
structure Potential where
  call : ℚ → ℚ
  force : ℚ → ℚ

/-- Model of `NoPotential`: both methods return `0.0`. -/
def NoPotential : Potential :=
  { call := fun _ => 0, force := fun _ => 0 }

/-- Model of `HarmonicPotential(k, center)`: `V(x) = 0.5*k*(x-center)**2`,
`F(x) = -k*(x-center)`. -/
def HarmonicPotential (k center : ℚ) : Potential :=
  { call := fun x => 0.5 * k * (x - center) ^ 2,
    force := fun x => -k * (x - center) }

/-- Model of `QuarticPotential(a, center)`: `V(x) = a*(x-center)**4`,
`F(x) = -4.0*a*(x-center)**3`. -/
def QuarticPotential (a center : ℚ) : Potential :=
  { call := fun x => a * (x - center) ^ 4,
    force := fun x => -4.0 * a * (x - center) ^ 3 }

/-- Model of `np.sign` on rationals. -/
def npSign (x : ℚ) : ℚ :=
  if 0 < x then 1 else if x < 0 then -1 else 0

/-- Model of the `BoxPotential` record: width, center, wall stiffness, and the
`half_width` computed at construction. -/
structure BoxPotential where
  width : ℚ
  center : ℚ
  wall_stiffness : ℚ
  half_width : ℚ
deriving Repr, DecidableEq

/-- Model of `BoxPotential.__init__(width, center, wall_stiffness)`: stores the
parameters unchecked and sets `half_width = width / 2.0`. -/
def BoxPotential.init (width center wall_stiffness : ℚ) : BoxPotential :=
  { width := width, center := center, wall_stiffness := wall_stiffness,
    half_width := width / 2 }

/-- Model of `BoxPotential.__call__`: zero inside the well (boundary inclusive),
`0.5 * wall_stiffness * overshoot**2` outside. -/
def BoxPotential.call (b : BoxPotential) (x : ℚ) : ℚ :=
  let dx := |x - b.center|
  if dx ≤ b.half_width then 0
  else 0.5 * b.wall_stiffness * (dx - b.half_width) ^ 2

/-- Model of `BoxPotential.force`: zero inside the well (boundary inclusive),
`-sign(dx) * wall_stiffness * overshoot` outside. -/
def BoxPotential.force (b : BoxPotential) (x : ℚ) : ℚ :=
  let dx := x - b.center
  if |dx| ≤ b.half_width then 0
  else -npSign dx * b.wall_stiffness * (|dx| - b.half_width)

/-- The `Potential` view of a `BoxPotential`. -/
def BoxPotential.toPotential (b : BoxPotential) : Potential :=
  { call := b.call, force := b.force }

/-- The mutable state of `simulate_particle`: the simulation clock, the
particle being mutated in place, and the six history lists. -/
structure SimState where
  time : ℚ
  particle : Particle1D
  times : List ℚ
  positions : List ℚ
  velocities : List ℚ
  ke : List ℚ
  pe : List ℚ
  total_e : List ℚ

/-- The particle update of one loop iteration of `simulate_particle`
(velocity Verlet, kick-drift-kick): first half-kick, drift, force
re-evaluation, second half-kick. -/
def verletParticleStep (pot : Potential) (dt : ℚ) (p : Particle1D) :
    Particle1D :=
  let force := pot.force p.position
  let p1 := ((p.apply_force force).update_velocity (dt / 2)).update_position dt
  let force2 := pot.force p1.position
  (p1.apply_force force2).update_velocity (dt / 2)

/-- One full iteration of the `while time < duration` loop body:
update the particle, advance `time` by `dt`, append the new sample and its
energies to the history lists. -/
def simBody (pot : Potential) (dt : ℚ) (s : SimState) : SimState :=
  let p2 := verletParticleStep pot dt s.particle
  let time := s.time + dt
  let newke := 0.5 * p2.mass * p2.velocity ^ 2
  let newpe := pot.call p2.position
  { time := time, particle := p2,
    times := s.times ++ [time],
    positions := s.positions ++ [p2.position],
    velocities := s.velocities ++ [p2.velocity],
    ke := s.ke ++ [newke],
    pe := s.pe ++ [newpe],
    total_e := s.total_e ++ [newke + newpe] }

/-- The state at the top of `simulate_particle`, before the loop:
`time = 0` and each list holds the initial sample. -/
def initState (p : Particle1D) (pot : Potential) : SimState :=
  { time := 0, particle := p,
    times := [0],
    positions := [p.position],
    velocities := [p.velocity],
    ke := [0.5 * p.mass * p.velocity ^ 2],
    pe := [pot.call p.position],
    total_e := [0.5 * p.mass * p.velocity ^ 2 + pot.call p.position] }

/-- The `while time < duration` loop of `simulate_particle`.  The Python
loop terminates only when `dt > 0`, which is taken as a hypothesis so the
recursion is well founded. -/
def simLoop (pot : Potential) (duration dt : ℚ) (hdt : 0 < dt)
    (s : SimState) : SimState :=
  if h : s.time < duration then
    simLoop pot duration dt hdt (simBody pot dt s)
  else s
termination_by (⌈(duration - s.time) / dt⌉).toNat
decreasing_by
  have h1 : 0 < (duration - s.time) / dt := div_pos (by linarith) hdt
  have h2 : (1 : ℤ) ≤ ⌈(duration - s.time) / dt⌉ := Int.ceil_pos.mpr h1
  have h3 : (duration - (simBody pot dt s).time) / dt
      = (duration - s.time) / dt - 1 := by
    show (duration - (s.time + dt)) / dt = _
    field_simp
    ring
  rw [h3, Int.ceil_sub_one]
  omega

/-- Model of `simulate_particle(particle, potential, duration, dt)` from
`particle_sim.py`, for `dt > 0`: initialise the history lists with the
initial sample, run the Verlet loop, and return the final state (the
history lists model the returned arrays, the particle field models the
in-place-mutated argument). -/
def simulate_particle (particle : Particle1D) (potential : Potential)
    (duration dt : ℚ) (hdt : 0 < dt) : SimState :=
  simLoop potential duration dt hdt (initState particle potential)

/-- The particle after `j` loop iterations (the trajectory sample `j`). -/
def traj (pot : Potential) (dt : ℚ) (p : Particle1D) (j : ℕ) : Particle1D :=
  (verletParticleStep pot dt)^[j] p

/-- Number of iterations the loop performs: `⌈duration / dt⌉` (clamped to
`0` for non-positive durations). -/
def nsteps (duration dt : ℚ) : ℕ := (⌈duration / dt⌉).toNat

theorem ceil_div_toNat_eq_zero_iff {d t dt : ℚ} (hdt : 0 < dt) :
    (⌈(d - t) / dt⌉).toNat = 0 ↔ d ≤ t := by
  rw [Int.toNat_eq_zero]
  constructor
  · intro h
    have h2 : (d - t) / dt ≤ (0 : ℤ) := Int.ceil_le.mp h
    have h3 : d - t ≤ 0 := by
      rw [div_le_iff hdt] at h2
      push_cast at h2
      linarith
    linarith
  · intro h
    apply Int.ceil_le.mpr
    push_cast
    rw [div_le_iff hdt]
    linarith

theorem simLoop_eq_iterate (pot : Potential) (duration dt : ℚ)
    (hdt : 0 < dt) :
    ∀ s : SimState, simLoop pot duration dt hdt s
      = (simBody pot dt)^[(⌈(duration - s.time) / dt⌉).toNat] s := by
  suffices H : ∀ (n : ℕ) (s : SimState),
      (⌈(duration - s.time) / dt⌉).toNat = n →
      simLoop pot duration dt hdt s = (simBody pot dt)^[n] s by
    intro s; exact H _ s rfl
  intro n
  induction n with
  | zero =>
    intro s h0
    have hnot : ¬ s.time < duration :=
      not_lt.mpr ((ceil_div_toNat_eq_zero_iff hdt).mp h0)
    rw [simLoop]
    simp [hnot]
  | succ n ih =>
    intro s hs
    have hlt : s.time < duration := by
      by_contra hc
      rw [(ceil_div_toNat_eq_zero_iff hdt).mpr (not_lt.mp hc)] at hs
      exact Nat.succ_ne_zero n hs.symm
    have hmeas : (⌈(duration - (simBody pot dt s).time) / dt⌉).toNat = n := by
      have h3 : (duration - (simBody pot dt s).time) / dt
          = (duration - s.time) / dt - 1 := by
        show (duration - (s.time + dt)) / dt = _
        field_simp
        ring
      rw [h3, Int.ceil_sub_one]
      omega
    rw [simLoop]
    simp only [hlt, dif_pos]
    rw [ih _ hmeas, Function.iterate_succ_apply]

theorem simulate_particle_eq (p : Particle1D) (pot : Potential)
    (duration dt : ℚ) (hdt : 0 < dt) :
    simulate_particle p pot duration dt hdt
      = (simBody pot dt)^[nsteps duration dt] (initState p pot) := by
  rw [simulate_particle, simLoop_eq_iterate]
  simp [initState, nsteps]

theorem simBody_iterate_time (pot : Potential) (dt : ℚ) (s : SimState) :
    ∀ n : ℕ, ((simBody pot dt)^[n] s).time = s.time + n * dt := by
  intro n
  induction n with
  | zero => simp
  | succ n ih =>
    rw [Function.iterate_succ_apply']
    show ((simBody pot dt)^[n] s).time + dt = _
    rw [ih]
    push_cast
    ring

theorem simBody_iterate_particle (pot : Potential) (dt : ℚ) (s : SimState) :
    ∀ n : ℕ, ((simBody pot dt)^[n] s).particle
      = (verletParticleStep pot dt)^[n] s.particle := by
  intro n
  induction n with
  | zero => simp
  | succ n ih =>
    rw [Function.iterate_succ_apply', Function.iterate_succ_apply']
    show verletParticleStep pot dt ((simBody pot dt)^[n] s).particle = _
    rw [ih]

theorem simBody_iterate_times (pot : Potential) (dt : ℚ) (s : SimState) :
    ∀ n : ℕ, ((simBody pot dt)^[n] s).times
      = s.times ++ (List.range n).map
          (fun j : ℕ => s.time + ((j : ℚ) + 1) * dt) := by
  intro n
  induction n with
  | zero => simp
  | succ n ih =>
    rw [Function.iterate_succ_apply']
    show ((simBody pot dt)^[n] s).times
        ++ [((simBody pot dt)^[n] s).time + dt] = _
    rw [ih, simBody_iterate_time, List.range_succ, List.map_append,
      ← List.append_assoc]
    simp
    push_cast
    ring

theorem simBody_iterate_positions (pot : Potential) (dt : ℚ) (s : SimState) :
    ∀ n : ℕ, ((simBody pot dt)^[n] s).positions
      = s.positions ++ (List.range n).map
          (fun j : ℕ =>
            ((verletParticleStep pot dt)^[j + 1] s.particle).position) := by
  intro n
  induction n with
  | zero => simp
  | succ n ih =>
    rw [Function.iterate_succ_apply']
    show ((simBody pot dt)^[n] s).positions
        ++ [(verletParticleStep pot dt ((simBody pot dt)^[n] s).particle).position]
        = _
    rw [ih, simBody_iterate_particle, List.range_succ, List.map_append,
      ← List.append_assoc]
    simp [Function.iterate_succ_apply']

theorem simBody_iterate_velocities (pot : Potential) (dt : ℚ) (s : SimState) :
    ∀ n : ℕ, ((simBody pot dt)^[n] s).velocities
      = s.velocities ++ (List.range n).map
          (fun j : ℕ =>
            ((verletParticleStep pot dt)^[j + 1] s.particle).velocity) := by
  intro n
  induction n with
  | zero => simp
  | succ n ih =>
    rw [Function.iterate_succ_apply']
    show ((simBody pot dt)^[n] s).velocities
        ++ [(verletParticleStep pot dt ((simBody pot dt)^[n] s).particle).velocity]
        = _
    rw [ih, simBody_iterate_particle, List.range_succ, List.map_append,
      ← List.append_assoc]
    simp [Function.iterate_succ_apply']

theorem simBody_iterate_ke (pot : Potential) (dt : ℚ) (s : SimState) :
    ∀ n : ℕ, ((simBody pot dt)^[n] s).ke
      = s.ke ++ (List.range n).map
          (fun j : ℕ =>
            0.5 * ((verletParticleStep pot dt)^[j + 1] s.particle).mass
              * ((verletParticleStep pot dt)^[j + 1] s.particle).velocity ^ 2) := by
  intro n
  induction n with
  | zero => simp
  | succ n ih =>
    rw [Function.iterate_succ_apply']
    show ((simBody pot dt)^[n] s).ke
        ++ [0.5 * (verletParticleStep pot dt ((simBody pot dt)^[n] s).particle).mass
              * (verletParticleStep pot dt ((simBody pot dt)^[n] s).particle).velocity ^ 2]
        = _
    rw [ih, simBody_iterate_particle, List.range_succ, List.map_append,
      ← List.append_assoc]
    simp [Function.iterate_succ_apply']

theorem simBody_iterate_pe (pot : Potential) (dt : ℚ) (s : SimState) :
    ∀ n : ℕ, ((simBody pot dt)^[n] s).pe
      = s.pe ++ (List.range n).map
          (fun j : ℕ =>
            pot.call ((verletParticleStep pot dt)^[j + 1] s.particle).position) := by
  intro n
  induction n with
  | zero => simp
  | succ n ih =>
    rw [Function.iterate_succ_apply']
    show ((simBody pot dt)^[n] s).pe
        ++ [pot.call (verletParticleStep pot dt ((simBody pot dt)^[n] s).particle).position]
        = _
    rw [ih, simBody_iterate_particle, List.range_succ, List.map_append,
      ← List.append_assoc]
    simp [Function.iterate_succ_apply']

theorem simBody_iterate_total_e (pot : Potential) (dt : ℚ) (s : SimState) :
    ∀ n : ℕ, ((simBody pot dt)^[n] s).total_e
      = s.total_e ++ (List.range n).map
          (fun j : ℕ =>
            0.5 * ((verletParticleStep pot dt)^[j + 1] s.particle).mass
              * ((verletParticleStep pot dt)^[j + 1] s.particle).velocity ^ 2
            + pot.call ((verletParticleStep pot dt)^[j + 1] s.particle).position) := by
  intro n
  induction n with
  | zero => simp
  | succ n ih =>
    rw [Function.iterate_succ_apply']
    show ((simBody pot dt)^[n] s).total_e
        ++ [0.5 * (verletParticleStep pot dt ((simBody pot dt)^[n] s).particle).mass
              * (verletParticleStep pot dt ((simBody pot dt)^[n] s).particle).velocity ^ 2
            + pot.call (verletParticleStep pot dt ((simBody pot dt)^[n] s).particle).position]
        = _
    rw [ih, simBody_iterate_particle, List.range_succ, List.map_append,
      ← List.append_assoc]
    simp [Function.iterate_succ_apply']

theorem traj_zero (pot : Potential) (dt : ℚ) (p : Particle1D) :
    traj pot dt p 0 = p := rfl

theorem traj_succ (pot : Potential) (dt : ℚ) (p : Particle1D) (j : ℕ) :
    traj pot dt p (j + 1) = verletParticleStep pot dt (traj pot dt p j) :=
  Function.iterate_succ_apply' _ _ _

theorem verletParticleStep_mass (pot : Potential) (dt : ℚ) (p : Particle1D) :
    (verletParticleStep pot dt p).mass = p.mass := by
  simp [verletParticleStep, Particle1D.apply_force, Particle1D.update_velocity,
    Particle1D.update_position]

theorem traj_mass (pot : Potential) (dt : ℚ) (p : Particle1D) :
    ∀ j : ℕ, (traj pot dt p j).mass = p.mass := by
  intro j
  induction j with
  | zero => rfl
  | succ j ih => rw [traj_succ, verletParticleStep_mass, ih]

theorem cons_map_shift (f : ℕ → ℚ) (n : ℕ) :
    f 0 :: (List.range n).map (fun j => f (j + 1))
      = (List.range (n + 1)).map f := by
  rw [List.range_succ_eq_map]
  simp [List.map_map, Function.comp]

theorem getD_map_range (f : ℕ → ℚ) (m i : ℕ) (h : i < m) :
    ((List.range m).map f).getD i 0 = f i := by
  have hl : i < ((List.range m).map f).length := by simp [h]
  rw [List.getD_eq_getElem _ _ hl, List.getElem_map, List.getElem_range]

theorem getLast?_map_range (f : ℕ → ℚ) (n : ℕ) :
    ((List.range (n + 1)).map f).getLast? = some (f n) := by
  rw [List.range_succ, List.map_append]
  simp

theorem simulate_particle_times (p : Particle1D) (pot : Potential)
    (duration dt : ℚ) (hdt : 0 < dt) :
    (simulate_particle p pot duration dt hdt).times
      = (List.range (nsteps duration dt + 1)).map
          (fun j : ℕ => (j : ℚ) * dt) := by
  rw [simulate_particle_eq, simBody_iterate_times, ← cons_map_shift]
  show [(0 : ℚ)] ++ (List.range _).map (fun j : ℕ => (0 : ℚ) + ((j : ℚ) + 1) * dt) = _
  rw [List.singleton_append]
  congr 1
  · push_cast
    ring
  · apply List.map_congr_left
    intro a _
    push_cast
    ring

theorem simulate_particle_positions (p : Particle1D) (pot : Potential)
    (duration dt : ℚ) (hdt : 0 < dt) :
    (simulate_particle p pot duration dt hdt).positions
      = (List.range (nsteps duration dt + 1)).map
          (fun j : ℕ => (traj pot dt p j).position) := by
  rw [simulate_particle_eq, simBody_iterate_positions, ← cons_map_shift]
  rfl

theorem simulate_particle_velocities (p : Particle1D) (pot : Potential)
    (duration dt : ℚ) (hdt : 0 < dt) :
    (simulate_particle p pot duration dt hdt).velocities
      = (List.range (nsteps duration dt + 1)).map
          (fun j : ℕ => (traj pot dt p j).velocity) := by
  rw [simulate_particle_eq, simBody_iterate_velocities, ← cons_map_shift]
  rfl

theorem simulate_particle_ke (p : Particle1D) (pot : Potential)
    (duration dt : ℚ) (hdt : 0 < dt) :
    (simulate_particle p pot duration dt hdt).ke
      = (List.range (nsteps duration dt + 1)).map
          (fun j : ℕ => 0.5 * (traj pot dt p j).mass
            * (traj pot dt p j).velocity ^ 2) := by
  rw [simulate_particle_eq, simBody_iterate_ke, ← cons_map_shift]
  rfl

theorem simulate_particle_pe (p : Particle1D) (pot : Potential)
    (duration dt : ℚ) (hdt : 0 < dt) :
    (simulate_particle p pot duration dt hdt).pe
      = (List.range (nsteps duration dt + 1)).map
          (fun j : ℕ => pot.call (traj pot dt p j).position) := by
  rw [simulate_particle_eq, simBody_iterate_pe, ← cons_map_shift]
  rfl

theorem simulate_particle_total_e (p : Particle1D) (pot : Potential)
    (duration dt : ℚ) (hdt : 0 < dt) :
    (simulate_particle p pot duration dt hdt).total_e
      = (List.range (nsteps duration dt + 1)).map
          (fun j : ℕ => 0.5 * (traj pot dt p j).mass
            * (traj pot dt p j).velocity ^ 2
            + pot.call (traj pot dt p j).position) := by
  rw [simulate_particle_eq, simBody_iterate_total_e, ← cons_map_shift]
  rfl

theorem simulate_particle_final_particle (p : Particle1D) (pot : Potential)
    (duration dt : ℚ) (hdt : 0 < dt) :
    (simulate_particle p pot duration dt hdt).particle
      = traj pot dt p (nsteps duration dt) := by
  rw [simulate_particle_eq, simBody_iterate_particle]
  rfl

theorem verletParticleStep_position (pot : Potential) (dt : ℚ)
    (p : Particle1D) :
    (verletParticleStep pot dt p).position
      = p.position
        + (p.velocity + pot.force p.position / p.mass * (dt / 2)) * dt := rfl

theorem verletParticleStep_velocity (pot : Potential) (dt : ℚ)
    (p : Particle1D) :
    (verletParticleStep pot dt p).velocity
      = (p.velocity + pot.force p.position / p.mass * (dt / 2))
        + pot.force ((verletParticleStep pot dt p).position) / p.mass
          * (dt / 2) := rfl

/-- Claim C2: for a particle with nonzero mass, every potential and every
step `i`, consecutive recorded samples obey the kick-drift-kick
velocity-Verlet equations: with
`vhalf = velocities[i] + dt/2 * force(positions[i]) / m`, the next
sample satisfies `positions[i+1] = positions[i] + dt * vhalf`,
`velocities[i+1] = vhalf + dt/2 * force(positions[i+1]) / m`, and
`times[i+1] = times[i] + dt`. -/
theorem simulate_particle_verlet_recurrence (p : Particle1D)
    (pot : Potential) (duration dt : ℚ) (hdt : 0 < dt)
    (hm : p.mass ≠ 0) :
    ∀ i : ℕ,
      i + 1 < (simulate_particle p pot duration dt hdt).times.length →
      ((simulate_particle p pot duration dt hdt).positions.getD (i + 1) 0
        = (simulate_particle p pot duration dt hdt).positions.getD i 0
          + dt * ((simulate_particle p pot duration dt hdt).velocities.getD i 0
            + dt / 2 * pot.force
                ((simulate_particle p pot duration dt hdt).positions.getD i 0)
              / p.mass))
      ∧ ((simulate_particle p pot duration dt hdt).velocities.getD (i + 1) 0
        = ((simulate_particle p pot duration dt hdt).velocities.getD i 0
            + dt / 2 * pot.force
                ((simulate_particle p pot duration dt hdt).positions.getD i 0)
              / p.mass)
          + dt / 2 * pot.force
              ((simulate_particle p pot duration dt hdt).positions.getD (i + 1) 0)
            / p.mass)
      ∧ ((simulate_particle p pot duration dt hdt).times.getD (i + 1) 0
        = (simulate_particle p pot duration dt hdt).times.getD i 0 + dt) := by
  intro i hi
  rw [simulate_particle_times] at hi
  simp only [List.length_map, List.length_range] at hi
  have hi1 : i < nsteps duration dt + 1 := by omega
  rw [simulate_particle_times, simulate_particle_positions,
    simulate_particle_velocities, getD_map_range _ _ _ hi,
    getD_map_range _ _ _ hi1, getD_map_range _ _ _ hi,
    getD_map_range _ _ _ hi1, getD_map_range _ _ _ hi,
    getD_map_range _ _ _ hi1]
  have hmass := traj_mass pot dt p i
  refine ⟨?_, ?_, ?_⟩
  · rw [traj_succ, verletParticleStep_position, hmass]
    ring
  · rw [traj_succ, verletParticleStep_velocity, hmass, ← traj_succ]
    ring
  · push_cast
    ring

/-- Claim C9: for the harmonic and quartic potentials, the potential
energy at `center + d` equals the potential energy at `center - d`, and
the force at `center + d` is the negation of the force at `center - d`. -/
theorem harmonic_quartic_symmetry (k a c d : ℚ) :
    (HarmonicPotential k c).call (c + d) = (HarmonicPotential k c).call (c - d)
    ∧ (HarmonicPotential k c).force (c + d)
        = -((HarmonicPotential k c).force (c - d))
    ∧ (QuarticPotential a c).call (c + d) = (QuarticPotential a c).call (c - d)
    ∧ (QuarticPotential a c).force (c + d)
        = -((QuarticPotential a c).force (c - d)) := by
  refine ⟨?_, ?_, ?_, ?_⟩ <;>
    simp only [HarmonicPotential, QuarticPotential] <;> ring

/-- Claim C6, counterexample: immediately outside the right wall of the
box (`width = 2`, `center = 0`, `stiffness = 1000`, `x = 1.1`) the force
is `-100`, which is not strictly positive — the restoring force outside
the right wall points back toward the box, so the claim that the force is
strictly positive immediately outside is false. -/
theorem box_force_negative_outside_right :
    (BoxPotential.init 2 0 1000).force (11 / 10) = -100
    ∧ ¬ (0 < (BoxPotential.init 2 0 1000).force (11 / 10)) := by
  have h : (BoxPotential.init 2 0 1000).force (11 / 10) = -100 := by
    rw [BoxPotential.force]
    norm_num [BoxPotential.init, npSign, abs]
  exact ⟨h, by rw [h]; norm_num⟩

/-- Claim C6, amended: for a box with positive width and stiffness, both
potential energy and force are exactly `0` at every `x` with
`|x - c| ≤ w/2` (boundary included); strictly outside, the potential
energy is strictly positive while the force is nonzero and directed back
toward the box: strictly negative right of the box, strictly positive
left of it. -/
theorem box_boundary_amended (w c s x : ℚ) (hw : 0 < w) (hs : 0 < s) :
    (|x - c| ≤ w / 2 →
      (BoxPotential.init w c s).call x = 0
      ∧ (BoxPotential.init w c s).force x = 0)
    ∧ (w / 2 < |x - c| →
      0 < (BoxPotential.init w c s).call x
      ∧ (c < x → (BoxPotential.init w c s).force x < 0)
      ∧ (x < c → 0 < (BoxPotential.init w c s).force x)) := by
  constructor
  · intro hin
    constructor
    · rw [BoxPotential.call]
      simp only [BoxPotential.init]
      rw [if_pos hin]
    · rw [BoxPotential.force]
      simp only [BoxPotential.init]
      rw [if_pos hin]
  · intro hout
    have hout' : ¬ |x - c| ≤ w / 2 := not_le.mpr hout
    refine ⟨?_, ?_, ?_⟩
    · rw [BoxPotential.call]
      simp only [BoxPotential.init]
      rw [if_neg hout']
      have h1 : 0 < |x - c| - w / 2 := by linarith
      positivity
    · intro hcx
      rw [BoxPotential.force]
      simp only [BoxPotential.init]
      rw [if_neg hout']
      have hdx : 0 < x - c := by linarith
      rw [npSign, if_pos hdx]
      have h1 : 0 < |x - c| - w / 2 := by linarith
      nlinarith
    · intro hxc
      rw [BoxPotential.force]
      simp only [BoxPotential.init]
      rw [if_neg hout']
      have hdx : x - c < 0 := by linarith
      rw [npSign, if_neg (by linarith), if_pos hdx]
      have h1 : 0 < |x - c| - w / 2 := by linarith
      nlinarith

/-- Claim C6 amended, witness at `w = 2`, `c = 0`, `s = 1000`. -/
theorem box_boundary_amended_witness :
    (0 : ℚ) < 2 ∧ (0 : ℚ) < 1000
    ∧ ((|(1 : ℚ) - 0| ≤ 2 / 2 →
        (BoxPotential.init 2 0 1000).call 1 = 0
        ∧ (BoxPotential.init 2 0 1000).force 1 = 0)
      ∧ ((2 : ℚ) / 2 < |(1 : ℚ) - 0| →
        0 < (BoxPotential.init 2 0 1000).call 1
        ∧ ((0 : ℚ) < 1 → (BoxPotential.init 2 0 1000).force 1 < 0)
        ∧ ((1 : ℚ) < 0 → 0 < (BoxPotential.init 2 0 1000).force 1))) :=
  ⟨by norm_num, by norm_num,
    box_boundary_amended 2 0 1000 1 (by norm_num) (by norm_num)⟩

/-- Claim C3, counterexample: no configuration is ever rejected.
`Particle1D.__init__` stores a negative mass without failing,
`BoxPotential.__init__` stores a negative width and stiffness without
failing, and `simulate_particle` run on the negative-mass particle
returns a full two-sample trajectory instead of aborting. -/
theorem no_validation_counterexample :
    (Particle1D.init 0 0 (-1)).mass = -1
    ∧ (BoxPotential.init (-2) 0 (-5)).width = -2
    ∧ (BoxPotential.init (-2) 0 (-5)).wall_stiffness = -5
    ∧ (simulate_particle (Particle1D.init 0 0 (-1)) NoPotential 1 1
        one_pos).times.length = 2 := by
  refine ⟨rfl, rfl, rfl, ?_⟩
  rw [simulate_particle_times]
  simp [nsteps]

/-- Claim C3, amended: the code performs no input validation.  Both
constructors store their parameters verbatim — including non-positive
mass, width and stiffness — without any failure, and `simulate_particle`
performs no `dt` check and returns a complete
`⌈duration/dt⌉ + 1`-sample trajectory for any particle with nonzero
(e.g. negative) mass.  The nonzero-mass restriction is needed because at
mass exactly `0` the Python run instead dies mid-loop with a division
error in `apply_force` — still not a rejection at construction time. -/
theorem no_validation_amended (x v m w c st duration dt : ℚ)
    (hdt : 0 < dt) (hm : m ≠ 0) :
    (Particle1D.init x v m).mass = m
    ∧ (Particle1D.init x v m).position = x
    ∧ (Particle1D.init x v m).velocity = v
    ∧ (BoxPotential.init w c st).width = w
    ∧ (BoxPotential.init w c st).wall_stiffness = st
    ∧ (simulate_particle (Particle1D.init x v m) NoPotential duration dt
        hdt).times.length = nsteps duration dt + 1 := by
  refine ⟨rfl, rfl, rfl, rfl, rfl, ?_⟩
  rw [simulate_particle_times]
  simp

/-- Claim C3 amended, witness at mass `-1`, width `-2`, stiffness `-5`,
`duration = dt = 1`. -/
theorem no_validation_amended_witness :
    (0 : ℚ) < 1 ∧ (-1 : ℚ) ≠ 0
    ∧ ((Particle1D.init 0 0 (-1)).mass = -1
      ∧ (Particle1D.init 0 0 (-1)).position = 0
      ∧ (Particle1D.init 0 0 (-1)).velocity = 0
      ∧ (BoxPotential.init (-2) 0 (-5)).width = -2
      ∧ (BoxPotential.init (-2) 0 (-5)).wall_stiffness = -5
      ∧ (simulate_particle (Particle1D.init 0 0 (-1)) NoPotential 1 1
          one_pos).times.length = nsteps 1 1 + 1) :=
  ⟨one_pos, by norm_num,
    no_validation_amended 0 0 (-1) (-2) 0 (-5) 1 1 one_pos (by norm_num)⟩

/-- Claim C2, witness: harmonic field, `x0 = 1`, `v0 = 0`, `m = 1`,
`duration = dt = 1`, step `i = 0`. -/
theorem simulate_particle_verlet_recurrence_witness :
    (0 : ℚ) < 1 ∧ (Particle1D.init 1 0 1).mass ≠ 0
    ∧ 1 < (simulate_particle (Particle1D.init 1 0 1) (HarmonicPotential 1 0)
        1 1 one_pos).times.length
    ∧ (simulate_particle (Particle1D.init 1 0 1) (HarmonicPotential 1 0)
        1 1 one_pos).times.getD 1 0
      = (simulate_particle (Particle1D.init 1 0 1) (HarmonicPotential 1 0)
          1 1 one_pos).times.getD 0 0 + 1 := by
  have hm : (Particle1D.init 1 0 1).mass ≠ 0 := by
    norm_num [Particle1D.init]
  have hlen : 1 < (simulate_particle (Particle1D.init 1 0 1)
      (HarmonicPotential 1 0) 1 1 one_pos).times.length := by
    rw [simulate_particle_times]
    simp [nsteps]
  exact ⟨one_pos, hm, hlen,
    (simulate_particle_verlet_recurrence (Particle1D.init 1 0 1)
      (HarmonicPotential 1 0) 1 1 one_pos hm 0 hlen).2.2⟩

theorem traj_noPotential (dt : ℚ) (p : Particle1D) :
    ∀ j : ℕ, (traj NoPotential dt p j).position
        = p.position + p.velocity * ((j : ℚ) * dt)
      ∧ (traj NoPotential dt p j).velocity = p.velocity := by
  intro j
  induction j with
  | zero => simp [traj]
  | succ j ih =>
    rw [traj_succ]
    refine ⟨?_, ?_⟩
    · rw [verletParticleStep_position, ih.1, ih.2]
      simp only [NoPotential, zero_div, zero_mul, add_zero]
      push_cast
      ring
    · rw [verletParticleStep_velocity, ih.2]
      simp [NoPotential]

/-- Claim C4: with `NoPotential`, every recorded sample satisfies
`positions[i] = positions[0] + velocities[0] * times[i]` and
`velocities[i] = velocities[0]` (exactly, in the rational model). -/
theorem free_particle_exact (x0 v0 m duration dt : ℚ) (hm : 0 < m)
    (hdt : 0 < dt) :
    ∀ i : ℕ,
      i < (simulate_particle (Particle1D.init x0 v0 m) NoPotential
          duration dt hdt).times.length →
      ((simulate_particle (Particle1D.init x0 v0 m) NoPotential duration dt
          hdt).positions.getD i 0
        = (simulate_particle (Particle1D.init x0 v0 m) NoPotential duration
            dt hdt).positions.getD 0 0
          + (simulate_particle (Particle1D.init x0 v0 m) NoPotential
              duration dt hdt).velocities.getD 0 0
            * (simulate_particle (Particle1D.init x0 v0 m) NoPotential
                duration dt hdt).times.getD i 0)
      ∧ (simulate_particle (Particle1D.init x0 v0 m) NoPotential duration dt
          hdt).velocities.getD i 0
        = (simulate_particle (Particle1D.init x0 v0 m) NoPotential duration
            dt hdt).velocities.getD 0 0 := by
  intro i hi
  rw [simulate_particle_times] at hi
  simp only [List.length_map, List.length_range] at hi
  have h0 : 0 < nsteps duration dt + 1 := Nat.succ_pos _
  rw [simulate_particle_times, simulate_particle_positions,
    simulate_particle_velocities, getD_map_range _ _ _ hi,
    getD_map_range _ _ _ h0, getD_map_range _ _ _ hi,
    getD_map_range _ _ _ h0, getD_map_range _ _ _ hi]
  have hj := traj_noPotential dt (Particle1D.init x0 v0 m) i
  have hj0 := traj_noPotential dt (Particle1D.init x0 v0 m) 0
  rw [hj.1, hj.2, hj0.1, hj0.2]
  refine ⟨?_, rfl⟩
  show x0 + v0 * ((i : ℚ) * dt) = x0 + v0 * ((0 : ℚ) * dt) + v0 * _
  push_cast
  ring

/-- Claim C4, witness: `x0 = 2`, `v0 = 3`, `m = 1`, `duration = dt = 1`,
sample `i = 1`. -/
theorem free_particle_exact_witness :
    (0 : ℚ) < 1 ∧ (0 : ℚ) < 1
    ∧ 1 < (simulate_particle (Particle1D.init 2 3 1) NoPotential 1 1
        one_pos).times.length
    ∧ ((simulate_particle (Particle1D.init 2 3 1) NoPotential 1 1
          one_pos).positions.getD 1 0
        = (simulate_particle (Particle1D.init 2 3 1) NoPotential 1 1
            one_pos).positions.getD 0 0
          + (simulate_particle (Particle1D.init 2 3 1) NoPotential 1 1
              one_pos).velocities.getD 0 0
            * (simulate_particle (Particle1D.init 2 3 1) NoPotential 1 1
                one_pos).times.getD 1 0)
    ∧ (simulate_particle (Particle1D.init 2 3 1) NoPotential 1 1
        one_pos).velocities.getD 1 0
      = (simulate_particle (Particle1D.init 2 3 1) NoPotential 1 1
          one_pos).velocities.getD 0 0 := by
  have hlen : 1 < (simulate_particle (Particle1D.init 2 3 1) NoPotential
      1 1 one_pos).times.length := by
    rw [simulate_particle_times]
    simp [nsteps]
  have h := free_particle_exact 2 3 1 1 1 one_pos one_pos 1 hlen
  exact ⟨one_pos, one_pos, hlen, h.1, h.2⟩

/-- Claim C5: for `dt > 0` and `duration > 0`, all six returned sequences
have the same length, namely `⌈duration/dt⌉ + 1` (the number of loop
iterations plus the initial sample). -/
theorem trajectory_lengths (p : Particle1D) (pot : Potential)
    (duration dt : ℚ) (hdt : 0 < dt) (hdur : 0 < duration) :
    (simulate_particle p pot duration dt hdt).times.length
      = (⌈duration / dt⌉).toNat + 1
    ∧ (simulate_particle p pot duration dt hdt).positions.length
      = (simulate_particle p pot duration dt hdt).times.length
    ∧ (simulate_particle p pot duration dt hdt).velocities.length
      = (simulate_particle p pot duration dt hdt).times.length
    ∧ (simulate_particle p pot duration dt hdt).ke.length
      = (simulate_particle p pot duration dt hdt).times.length
    ∧ (simulate_particle p pot duration dt hdt).pe.length
      = (simulate_particle p pot duration dt hdt).times.length
    ∧ (simulate_particle p pot duration dt hdt).total_e.length
      = (simulate_particle p pot duration dt hdt).times.length := by
  rw [simulate_particle_times, simulate_particle_positions,
    simulate_particle_velocities, simulate_particle_ke,
    simulate_particle_pe, simulate_particle_total_e]
  simp [nsteps]

/-- Claim C5, witness: `duration = 3`, `dt = 2` (so `⌈3/2⌉ + 1 = 3`
samples). -/
theorem trajectory_lengths_witness :
    (0 : ℚ) < 2 ∧ (0 : ℚ) < 3
    ∧ (simulate_particle (Particle1D.init 0 0 1) NoPotential 3 2
        two_pos).times.length = (⌈(3 : ℚ) / 2⌉).toNat + 1
    ∧ (simulate_particle (Particle1D.init 0 0 1) NoPotential 3 2
        two_pos).positions.length
      = (simulate_particle (Particle1D.init 0 0 1) NoPotential 3 2
          two_pos).times.length
    ∧ (simulate_particle (Particle1D.init 0 0 1) NoPotential 3 2
        two_pos).velocities.length
      = (simulate_particle (Particle1D.init 0 0 1) NoPotential 3 2
          two_pos).times.length
    ∧ (simulate_particle (Particle1D.init 0 0 1) NoPotential 3 2
        two_pos).ke.length
      = (simulate_particle (Particle1D.init 0 0 1) NoPotential 3 2
          two_pos).times.length
    ∧ (simulate_particle (Particle1D.init 0 0 1) NoPotential 3 2
        two_pos).pe.length
      = (simulate_particle (Particle1D.init 0 0 1) NoPotential 3 2
          two_pos).times.length
    ∧ (simulate_particle (Particle1D.init 0 0 1) NoPotential 3 2
        two_pos).total_e.length
      = (simulate_particle (Particle1D.init 0 0 1) NoPotential 3 2
          two_pos).times.length := by
  have h := trajectory_lengths (Particle1D.init 0 0 1) NoPotential 3 2
    two_pos (by norm_num)
  exact ⟨two_pos, by norm_num, h.1, h.2.1, h.2.2.1, h.2.2.2.1,
    h.2.2.2.2.1, h.2.2.2.2.2⟩

/-- Claim C7: for any particle, potential and `dt > 0`, a run with
`duration ≤ 0` performs no loop iteration: every returned sequence is the
single initial sample — `times = [0]`, the particle's initial position
and velocity, and the energies computed from that state. -/
theorem duration_nonpos_initial_sample_only (p : Particle1D)
    (pot : Potential) (duration dt : ℚ) (hdt : 0 < dt)
    (hdur : duration ≤ 0) :
    (simulate_particle p pot duration dt hdt).times = [0]
    ∧ (simulate_particle p pot duration dt hdt).positions = [p.position]
    ∧ (simulate_particle p pot duration dt hdt).velocities = [p.velocity]
    ∧ (simulate_particle p pot duration dt hdt).ke
      = [0.5 * p.mass * p.velocity ^ 2]
    ∧ (simulate_particle p pot duration dt hdt).pe = [pot.call p.position]
    ∧ (simulate_particle p pot duration dt hdt).total_e
      = [0.5 * p.mass * p.velocity ^ 2 + pot.call p.position] := by
  have hn : nsteps duration dt = 0 := by
    rw [nsteps, Int.toNat_eq_zero]
    apply Int.ceil_le.mpr
    push_cast
    rw [div_le_iff hdt]
    linarith
  rw [simulate_particle_eq, hn, Function.iterate_zero_apply]
  exact ⟨rfl, rfl, rfl, rfl, rfl, rfl⟩

/-- Claim C7, witness: `duration = 0`, `dt = 1`, particle `(1, 2, 3)`,
harmonic potential. -/
theorem duration_nonpos_initial_sample_only_witness :
    (0 : ℚ) < 1 ∧ (0 : ℚ) ≤ 0
    ∧ (simulate_particle (Particle1D.init 1 2 3) (HarmonicPotential 1 0) 0
        1 one_pos).times = [0]
    ∧ (simulate_particle (Particle1D.init 1 2 3) (HarmonicPotential 1 0) 0
        1 one_pos).positions = [(Particle1D.init 1 2 3).position]
    ∧ (simulate_particle (Particle1D.init 1 2 3) (HarmonicPotential 1 0) 0
        1 one_pos).velocities = [(Particle1D.init 1 2 3).velocity]
    ∧ (simulate_particle (Particle1D.init 1 2 3) (HarmonicPotential 1 0) 0
        1 one_pos).ke
      = [0.5 * (Particle1D.init 1 2 3).mass
          * (Particle1D.init 1 2 3).velocity ^ 2]
    ∧ (simulate_particle (Particle1D.init 1 2 3) (HarmonicPotential 1 0) 0
        1 one_pos).pe
      = [(HarmonicPotential 1 0).call (Particle1D.init 1 2 3).position]
    ∧ (simulate_particle (Particle1D.init 1 2 3) (HarmonicPotential 1 0) 0
        1 one_pos).total_e
      = [0.5 * (Particle1D.init 1 2 3).mass
          * (Particle1D.init 1 2 3).velocity ^ 2
          + (HarmonicPotential 1 0).call (Particle1D.init 1 2 3).position] := by
  have h := duration_nonpos_initial_sample_only (Particle1D.init 1 2 3)
    (HarmonicPotential 1 0) 0 1 one_pos le_rfl
  exact ⟨one_pos, le_rfl, h.1, h.2.1, h.2.2.1, h.2.2.2.1, h.2.2.2.2.1,
    h.2.2.2.2.2⟩

/-- Claim C8: for every `dt > 0` the loop guard `time < duration`
eventually fails (the loop terminates after finitely many iterations of
its body), while for `dt ≤ 0` and `duration > 0` the guard still holds
after every finite number of body iterations — the loop never exits, so
non-positive `dt` is the input that makes it run forever. -/
theorem loop_termination_dichotomy (p : Particle1D) (pot : Potential)
    (duration dt : ℚ) :
    (0 < dt →
      ∃ n : ℕ, duration ≤ ((simBody pot dt)^[n] (initState p pot)).time)
    ∧ (dt ≤ 0 → 0 < duration →
      ∀ n : ℕ, ((simBody pot dt)^[n] (initState p pot)).time < duration) := by
  constructor
  · intro hdt
    obtain ⟨n, hn⟩ := exists_nat_ge (duration / dt)
    refine ⟨n, ?_⟩
    rw [simBody_iterate_time]
    show duration ≤ (0 : ℚ) + n * dt
    rw [div_le_iff hdt] at hn
    linarith
  · intro hdt hdur n
    rw [simBody_iterate_time]
    show (0 : ℚ) + n * dt < duration
    have hn0 : (0 : ℚ) ≤ (n : ℚ) := Nat.cast_nonneg n
    nlinarith

/-- Claim C8, witness: with `dt = 1` the guard fails after finitely many
iterations for `duration = 1`; with `dt = 0` it never fails. -/
theorem loop_termination_dichotomy_witness :
    ((0 : ℚ) < 1 ∧ ∃ n : ℕ, (1 : ℚ)
      ≤ ((simBody NoPotential 1)^[n]
          (initState (Particle1D.init 0 0 1) NoPotential)).time)
    ∧ ((0 : ℚ) ≤ 0 ∧ (0 : ℚ) < 1 ∧ ∀ n : ℕ,
        ((simBody NoPotential 0)^[n]
          (initState (Particle1D.init 0 0 1) NoPotential)).time < 1) :=
  ⟨⟨one_pos, (loop_termination_dichotomy (Particle1D.init 0 0 1)
      NoPotential 1 1).1 one_pos⟩,
   ⟨le_rfl, one_pos, (loop_termination_dichotomy (Particle1D.init 0 0 1)
      NoPotential 1 0).2 le_rfl one_pos⟩⟩

/-- Claim C10: after a run, the particle state carried through the loop
(the in-place-mutated argument) has position and velocity equal to the
last entries of the returned arrays, and its mass is exactly the value it
had on entry. -/
theorem simulate_particle_mutates_particle (p : Particle1D)
    (pot : Potential) (duration dt : ℚ) (hdt : 0 < dt) :
    (simulate_particle p pot duration dt hdt).positions.getLast?
      = some (simulate_particle p pot duration dt hdt).particle.position
    ∧ (simulate_particle p pot duration dt hdt).velocities.getLast?
      = some (simulate_particle p pot duration dt hdt).particle.velocity
    ∧ (simulate_particle p pot duration dt hdt).particle.mass = p.mass := by
  rw [simulate_particle_positions, simulate_particle_velocities,
    simulate_particle_final_particle, getLast?_map_range,
    getLast?_map_range]
  exact ⟨rfl, rfl, traj_mass pot dt p (nsteps duration dt)⟩

/-- Claim C10, witness: particle `(1, 2, 3)`, harmonic potential,
`duration = dt = 1`. -/
theorem simulate_particle_mutates_particle_witness :
    (0 : ℚ) < 1
    ∧ (simulate_particle (Particle1D.init 1 2 3) (HarmonicPotential 1 0) 1
        1 one_pos).positions.getLast?
      = some (simulate_particle (Particle1D.init 1 2 3)
          (HarmonicPotential 1 0) 1 1 one_pos).particle.position
    ∧ (simulate_particle (Particle1D.init 1 2 3) (HarmonicPotential 1 0) 1
        1 one_pos).velocities.getLast?
      = some (simulate_particle (Particle1D.init 1 2 3)
          (HarmonicPotential 1 0) 1 1 one_pos).particle.velocity
    ∧ (simulate_particle (Particle1D.init 1 2 3) (HarmonicPotential 1 0) 1
        1 one_pos).particle.mass = (Particle1D.init 1 2 3).mass :=
  ⟨one_pos, simulate_particle_mutates_particle (Particle1D.init 1 2 3)
    (HarmonicPotential 1 0) 1 1 one_pos⟩
